import Mathlib

/-!
Shallow embedding of the model-matching and goodness-of-fit core of the
genetic segregation ratio tester in src/app.py.

The embedding works over `ℚ` (numpy converts the integer inputs to floats
before any arithmetic; over the inputs appearing here the float arithmetic
is exact, and the rational model makes the algebra exact everywhere).
The external statistical primitive `scipy.stats.chisquare` is not code of
this repository: the evaluator and selector take it as an explicit
function parameter `chisq`, and a separate model of the primitive
(Pearson statistic plus an abstract p-value map) is provided for the
claims that need facts about it.
-/

/-- The process-wide model catalog (src/app.py lines 8-19): a Python dict
literal, embedded as an association list in its insertion order, which is
the iteration order of `models.items()`. -/
def models : List (String × List ℚ) :=
  [("3:1", [3, 1]),
   ("1:2:1", [1, 2, 1]),
   ("1:1:1:1", [1, 1, 1, 1]),
   ("9:3:3:1", [9, 3, 3, 1]),
   ("12:3:1", [12, 3, 1]),
   ("9:7", [9, 7]),
   ("15:1", [15, 1]),
   ("9:3:4", [9, 3, 4]),
   ("13:3", [13, 3]),
   ("9:6:1", [9, 6, 1])]

/-- The result dict built by `test_segregation` (src/app.py lines 30-36),
before `compare_models` adds the `model` key. -/
structure SegResult where
  observed : List ℚ
  expected : List ℚ
  chi_square_stat : ℚ
  p_value : ℚ
  best_fit_ratio : List ℚ
deriving DecidableEq

/-- The result dict after `compare_models` adds `result['model'] = name`
(src/app.py line 44). -/
structure FitResult extends SegResult where
  model : String
deriving DecidableEq

/-- Embedding of `test_segregation` (src/app.py lines 21-37): `total` is the
sum of the observed counts, `expected` is the elementwise
`ratios / sum(ratios) * total`, and the external primitive `chisq`
(scipy.stats.chisquare) is applied to the observed counts and this expected
vector, its statistic and p-value stored verbatim. The function performs no
validation of any kind: no length check, no zero-total check, and it cannot
signal any error of its own. -/
def test_segregation (chisq : List ℚ → List ℚ → ℚ × ℚ)
    (observed ratios : List ℚ) : SegResult :=
  let total := observed.sum
  let expected := ratios.map (fun r => r / ratios.sum * total)
  let chi := chisq observed expected
  { observed := observed
    expected := expected
    chi_square_stat := chi.1
    p_value := chi.2
    best_fit_ratio := ratios }

/-- The candidate list built by the loop of `compare_models` (src/app.py
lines 40-45): every catalog entry whose ratio length equals the observed
length, in catalog insertion order, evaluated by `test_segregation` and
tagged with its model name. -/
def candidates (chisq : List ℚ → List ℚ → ℚ × ℚ)
    (observed_counts : List ℚ) : List FitResult :=
  (models.filter (fun m => m.2.length == observed_counts.length)).map
    (fun m => ⟨test_segregation chisq observed_counts m.2, m.1⟩)

/-- Python's `max(xs, key)` over a nonempty list `x :: xs`: scan left to
right, replacing the current best only when the new key is strictly
greater, so the first element attaining the maximal key is returned. -/
def pymax {α : Type} (key : α → ℚ) (x : α) (xs : List α) : α :=
  xs.foldl (fun best y => if key best < key y then y else best) x

/-- Embedding of `compare_models` (src/app.py lines 39-49): build the
candidate list; if it is empty return `none` (Python `None`), otherwise
return the candidate with maximal `p_value` under Python's
first-wins `max`. -/
def compare_models (chisq : List ℚ → List ℚ → ℚ × ℚ)
    (observed_counts : List ℚ) : Option FitResult :=
  match candidates chisq observed_counts with
  | [] => none
  | x :: xs => some (pymax (fun r => r.p_value) x xs)

/-- The two significance verdicts of the spec: FITS (the report text
"... considered consistent with the best fit model ...") and
NO_MODEL_EXPLAINS (the report text "No model explains the observed
segregation ratio ..."). -/
inductive Verdict where
  | FITS : Verdict
  | NO_MODEL_EXPLAINS : Verdict
deriving DecidableEq

/-- The interpretation branch of `result_ui` (src/app.py lines 89-93): when
`result['p_value'] < 0.05` the displayed interpretation is the
"consistent with the best fit model" message (the FITS verdict); otherwise
it is "No model explains the observed segregation ratio". -/
def result_ui_verdict (p_value : ℚ) : Verdict :=
  if p_value < 1 / 20 then Verdict.FITS else Verdict.NO_MODEL_EXPLAINS

/-- The Pearson goodness-of-fit statistic that `scipy.stats.chisquare`
computes from aligned observed and expected vectors: the sum over positions
of `(observed - expected)^2 / expected`. -/
def pearson_stat (observed expected : List ℚ) : ℚ :=
  ((observed.zip expected).map (fun p => (p.1 - p.2) ^ 2 / p.2)).sum

/-- Model of the external primitive `scipy.stats.chisquare` for a fixed
number of classes: the Pearson statistic paired with a p-value that is a
function `pval` of the statistic alone (the survival function of the
chi-square distribution at the implicit degrees of freedom). The claims
that need it assume only the documented facts about that survival
function: it is antitone in the statistic and equals 1 at statistic 0. -/
def scipy_chisquare (pval : ℚ → ℚ) (observed expected : List ℚ) : ℚ × ℚ :=
  (pearson_stat observed expected, pval (pearson_stat observed expected))

/-- A trivial stand-in for the external primitive, used only to evaluate
the embedding at concrete inputs in witness statements. -/
def chisq0 : List ℚ → List ℚ → ℚ × ℚ := fun _ _ => (0, 0)

/-- `pymax` splits its input list around its result: everything strictly
before the result has a strictly smaller key (so the first element
attaining the maximum is returned), and every element of the list has a
key at most the result's key (so the result attains the maximum). -/
theorem pymax_spec {α : Type} (key : α → ℚ) (xs : List α) :
    ∀ x : α, ∃ pre post,
      x :: xs = pre ++ pymax key x xs :: post ∧
      (∀ c ∈ pre, key c < key (pymax key x xs)) ∧
      (∀ c ∈ x :: xs, key c ≤ key (pymax key x xs)) := by
  induction xs with
  | nil =>
      intro x
      refine ⟨[], [], rfl, by simp, ?_⟩
      intro c hc
      simp only [List.mem_singleton] at hc
      simp [hc, pymax]
  | cons y ys ih =>
      intro x
      by_cases hxy : key x < key y
      · obtain ⟨pre, post, heq, hpre, hall⟩ := ih y
        have hunf : pymax key x (y :: ys) = pymax key y ys := by
          simp [pymax, List.foldl_cons, if_pos hxy]
        rw [hunf]
        refine ⟨x :: pre, post, ?_, ?_, ?_⟩
        · rw [List.cons_append, ← heq]
        · intro c hc
          rcases List.mem_cons.mp hc with h | h
          · rw [h]
            exact lt_of_lt_of_le hxy (hall y (List.mem_cons_self y ys))
          · exact hpre c h
        · intro c hc
          rcases List.mem_cons.mp hc with h | h
          · rw [h]
            exact le_of_lt (lt_of_lt_of_le hxy (hall y (List.mem_cons_self y ys)))
          · exact hall c h
      · obtain ⟨pre, post, heq, hpre, hall⟩ := ih x
        have hunf : pymax key x (y :: ys) = pymax key x ys := by
          simp [pymax, List.foldl_cons, if_neg hxy]
        rw [hunf]
        have hyx : key y ≤ key x := le_of_not_lt hxy
        cases pre with
        | nil =>
            simp only [List.nil_append, List.cons.injEq] at heq
            refine ⟨[], y :: post, ?_, by simp, ?_⟩
            · simp [← heq.1, ← heq.2]
            · intro c hc
              rcases List.mem_cons.mp hc with h | h
              · rw [h]
                exact hall x (List.mem_cons_self x ys)
              · rcases List.mem_cons.mp h with h2 | h2
                · rw [h2]
                  exact le_trans hyx (hall x (List.mem_cons_self x ys))
                · exact hall c (List.mem_cons_of_mem x (heq.2 ▸ h2))
        | cons p pr =>
            simp only [List.cons_append, List.cons.injEq] at heq
            refine ⟨x :: y :: pr, post, ?_, ?_, ?_⟩
            · rw [List.cons_append, List.cons_append, ← heq.2]
            · intro c hc
              have hx : key x < key (pymax key x ys) := by
                rw [congrArg key heq.1]
                exact hpre p (List.mem_cons_self p pr)
              rcases List.mem_cons.mp hc with h | h
              · rw [h]; exact hx
              · rcases List.mem_cons.mp h with h2 | h2
                · rw [h2]
                  exact lt_of_le_of_lt hyx hx
                · exact hpre c (List.mem_cons_of_mem p h2)
            · intro c hc
              rcases List.mem_cons.mp hc with h | h
              · rw [h]
                exact hall x (List.mem_cons_self x ys)
              · rcases List.mem_cons.mp h with h2 | h2
                · rw [h2]
                  exact le_trans hyx (hall x (List.mem_cons_self x ys))
                · exact hall c (List.mem_cons_of_mem x h2)

/-- When the head's key dominates every later element's key, Python's
first-wins `max` returns the head. -/
theorem pymax_eq_head {α : Type} (key : α → ℚ) (x : α) (xs : List α)
    (h : ∀ y ∈ xs, key y ≤ key x) : pymax key x xs = x := by
  induction xs generalizing x with
  | nil => rfl
  | cons y ys ih =>
      have hunf : pymax key x (y :: ys) = pymax key x ys := by
        simp [pymax, List.foldl_cons,
          if_neg (not_lt.mpr (h y (List.mem_cons_self y ys)))]
      rw [hunf]
      exact ih x (fun z hz => h z (List.mem_cons_of_mem y hz))

/-- `pymax` returns an element of its input list. -/
theorem pymax_mem {α : Type} (key : α → ℚ) (x : α) (xs : List α) :
    pymax key x xs ∈ x :: xs := by
  obtain ⟨pre, post, heq, -, -⟩ := pymax_spec key xs x
  rw [heq]
  exact List.mem_append_right pre (List.mem_cons_self _ post)

/-- Summing a list after multiplying every entry by a constant multiplies
the sum by that constant. -/
theorem sum_map_mul_const (l : List ℚ) (c : ℚ) :
    (l.map (fun r => r * c)).sum = l.sum * c := by
  induction l with
  | nil => simp
  | cons x xs ih => simp [ih, add_mul]

/-- C1: the spec fixes the verdict as FITS exactly when the p-value is
strictly greater than 0.05 and NO_MODEL_EXPLAINS otherwise. The code's
interpretation branch (src/app.py lines 90-93) is inverted: at p-value 0.9
(greater than 0.05) it reports NO_MODEL_EXPLAINS, and at p-value 0.01 (at
most 0.05) it reports the FITS interpretation. -/
theorem C1_verdict_inverted :
    result_ui_verdict (9 / 10) = Verdict.NO_MODEL_EXPLAINS ∧
    result_ui_verdict (1 / 100) = Verdict.FITS ∧
    (1 / 20 : ℚ) < 9 / 10 ∧ (1 / 100 : ℚ) ≤ 1 / 20 := by
  refine ⟨?_, ?_, by norm_num, by norm_num⟩
  · rw [result_ui_verdict, if_neg (by norm_num)]
  · rw [result_ui_verdict, if_pos (by norm_num)]

/-- C2: on equally long observed and ratio vectors with positive observed
total, the evaluator keeps the observed vector, computes
`expected[i] = ratio[i] / sum(ratio) * sum(observed)` position by position
(no reordering), and stores the external primitive's output on exactly
`(observed, expected)` verbatim. -/
theorem C2_evaluator_expected (chisq : List ℚ → List ℚ → ℚ × ℚ)
    (observed ratios : List ℚ)
    (_hlen : observed.length = ratios.length)
    (_hpos : 0 < observed.sum) :
    (test_segregation chisq observed ratios).observed = observed ∧
    (∀ i : ℕ, (test_segregation chisq observed ratios).expected.get? i =
      Option.map (fun r => r / ratios.sum * observed.sum) (ratios.get? i)) ∧
    ((test_segregation chisq observed ratios).chi_square_stat,
      (test_segregation chisq observed ratios).p_value) =
      chisq observed (test_segregation chisq observed ratios).expected := by
  refine ⟨rfl, ?_, rfl⟩
  intro i
  simp [test_segregation]

/-- C2 at a concrete input: observed = [90, 30] against ratio [3, 1]. -/
theorem C2_evaluator_expected_witness :
    ([90, 30] : List ℚ).length = ([3, 1] : List ℚ).length ∧
    (0 : ℚ) < ([90, 30] : List ℚ).sum ∧
    ((test_segregation chisq0 [90, 30] [3, 1]).observed = [90, 30] ∧
     (∀ i : ℕ, (test_segregation chisq0 [90, 30] [3, 1]).expected.get? i =
       Option.map (fun r => r / ([3, 1] : List ℚ).sum * ([90, 30] : List ℚ).sum)
         (([3, 1] : List ℚ).get? i)) ∧
     ((test_segregation chisq0 [90, 30] [3, 1]).chi_square_stat,
       (test_segregation chisq0 [90, 30] [3, 1]).p_value) =
       chisq0 [90, 30] (test_segregation chisq0 [90, 30] [3, 1]).expected) :=
  ⟨rfl, by norm_num,
    C2_evaluator_expected chisq0 [90, 30] [3, 1] rfl (by norm_num)⟩

/-- C3: with positive ratio entries and equal lengths, the computed
expected counts sum to the observed total (exactly, in the rational
model). -/
theorem C3_expected_total (chisq : List ℚ → List ℚ → ℚ × ℚ)
    (observed ratios : List ℚ)
    (hlen : observed.length = ratios.length)
    (hpos : ∀ r ∈ ratios, 0 < r) :
    (test_segregation chisq observed ratios).expected.sum = observed.sum := by
  rcases hr : ratios with _ | ⟨r, rs⟩
  · have hobs : observed = [] := by
      rw [hr] at hlen
      exact List.length_eq_zero.mp hlen
    rw [hobs]
    simp [test_segregation]
  · rw [hr] at hpos
    have hS : 0 < (r :: rs).sum :=
      List.sum_pos (r :: rs) hpos (List.cons_ne_nil r rs)
    have hmap : ((r :: rs).map (fun t => t / (r :: rs).sum * observed.sum)) =
        ((r :: rs).map (fun t => t * (observed.sum / (r :: rs).sum))) := by
      apply List.map_congr_left
      intro t _
      rw [div_mul_eq_mul_div, mul_div_assoc]
    show ((r :: rs).map (fun t => t / (r :: rs).sum * observed.sum)).sum = observed.sum
    rw [hmap, sum_map_mul_const, ← mul_div_assoc,
      mul_div_cancel_left₀ _ (ne_of_gt hS)]

/-- C3 at a concrete input: observed = [90, 30] against ratio [3, 1]. -/
theorem C3_expected_total_witness :
    ([90, 30] : List ℚ).length = ([3, 1] : List ℚ).length ∧
    (∀ r ∈ ([3, 1] : List ℚ), 0 < r) ∧
    (test_segregation chisq0 [90, 30] [3, 1]).expected.sum =
      ([90, 30] : List ℚ).sum :=
  ⟨rfl, by norm_num,
    C3_expected_total chisq0 [90, 30] [3, 1] rfl (by norm_num)⟩

/-- C5: when no catalog entry's ratio length equals the observed length the
selector returns `none` (Python `None`, the NO_MATCH outcome); the
embedded selector is a total function, so no exception is possible on this
path. -/
theorem C5_no_match (chisq : List ℚ → List ℚ → ℚ × ℚ)
    (observed_counts : List ℚ)
    (h : models.filter (fun m => m.2.length == observed_counts.length) = []) :
    compare_models chisq observed_counts = none := by
  simp [compare_models, candidates, h]

/-- C5 at a concrete input: five observed classes match no catalog model. -/
theorem C5_no_match_witness :
    models.filter (fun m => m.2.length == ([1, 1, 1, 1, 1] : List ℚ).length) = [] ∧
    compare_models chisq0 [1, 1, 1, 1, 1] = none :=
  ⟨rfl, C5_no_match chisq0 [1, 1, 1, 1, 1] rfl⟩

/-- C9: the selector is a pure function of the observed counts (and of the
external primitive): identical inputs give identical outcomes. -/
theorem C9_deterministic (chisq : List ℚ → List ℚ → ℚ × ℚ)
    (obs1 obs2 : List ℚ) (h : obs1 = obs2) :
    compare_models chisq obs1 = compare_models chisq obs2 := by
  rw [h]

/-- C9 at a concrete input: two runs on observed = [90, 30] agree. -/
theorem C9_deterministic_witness :
    ([90, 30] : List ℚ) = [90, 30] ∧
    compare_models chisq0 [90, 30] = compare_models chisq0 [90, 30] :=
  ⟨rfl, C9_deterministic chisq0 [90, 30] [90, 30] rfl⟩

/-- C4: with at least one catalog model of matching ratio length, the
selector returns the candidate of maximal p-value, and on exact p-value
ties the candidate earliest in catalog insertion order: the candidate list
splits as `pre ++ best :: post` with everything in `pre` strictly below
the returned p-value and every candidate at most it. -/
theorem C4_select_best_max (chisq : List ℚ → List ℚ → ℚ × ℚ)
    (observed_counts : List ℚ)
    (hne : models.filter (fun m => m.2.length == observed_counts.length) ≠ []) :
    ∃ best pre post,
      compare_models chisq observed_counts = some best ∧
      candidates chisq observed_counts = pre ++ best :: post ∧
      (∀ c ∈ pre, c.p_value < best.p_value) ∧
      (∀ c ∈ candidates chisq observed_counts, c.p_value ≤ best.p_value) := by
  rcases hc : candidates chisq observed_counts with _ | ⟨x, xs⟩
  · have : models.filter (fun m => m.2.length == observed_counts.length) = [] := by
      simpa [candidates] using hc
    exact absurd this hne
  · obtain ⟨pre, post, heq, hpre, hall⟩ := pymax_spec (fun r => r.p_value) xs x
    refine ⟨pymax (fun r => r.p_value) x xs, pre, post, ?_, ?_, hpre, ?_⟩
    · simp [compare_models, hc]
    · exact heq
    · intro c hcmem
      exact hall c hcmem

/-- C4 at a concrete input: two observed classes have matching models. -/
theorem C4_select_best_max_witness :
    models.filter (fun m => m.2.length == ([1, 1] : List ℚ).length) ≠ [] ∧
    (∃ best pre post,
      compare_models chisq0 [1, 1] = some best ∧
      candidates chisq0 [1, 1] = pre ++ best :: post ∧
      (∀ c ∈ pre, c.p_value < best.p_value) ∧
      (∀ c ∈ candidates chisq0 [1, 1], c.p_value ≤ best.p_value)) :=
  ⟨by decide, C4_select_best_max chisq0 [1, 1] (by decide)⟩

/-- Every catalog entry is found under its own name: model names are
unique, so looking up the name of an entry returns that entry's ratio. -/
theorem models_lookup_self : ∀ m ∈ models, models.lookup m.1 = some m.2 := by
  decide

/-- C10: the embedded pipeline is pure (it can mutate neither its input
nor the catalog, which the embedding renders as immutable values), and
whenever the selector returns a result, its `observed` field is the input
counts element for element and its ratio field is the catalog ratio
registered under the returned model name. -/
theorem C10_frame (chisq : List ℚ → List ℚ → ℚ × ℚ)
    (observed : List ℚ) (r : FitResult)
    (h : compare_models chisq observed = some r) :
    r.observed = observed ∧ models.lookup r.model = some r.best_fit_ratio := by
  have hr : r ∈ candidates chisq observed := by
    rcases hc : candidates chisq observed with _ | ⟨x, xs⟩
    · simp [compare_models, hc] at h
    · simp only [compare_models, hc] at h
      have hp : pymax (fun r => r.p_value) x xs = r := Option.some.inj h
      rw [← hp]
      exact pymax_mem (fun r => r.p_value) x xs
  rw [candidates] at hr
  obtain ⟨m, hm, hrm⟩ := List.mem_map.mp hr
  have hmem : m ∈ models := (List.mem_filter.mp hm).1
  rw [← hrm]
  exact ⟨rfl, models_lookup_self m hmem⟩

/-- C10 at a concrete input: observed = [1, 1] with the trivial primitive
selects "3:1"; the result keeps the input and the catalog ratio of the
returned name. -/
theorem C10_frame_witness :
    compare_models chisq0 [1, 1] =
      some ⟨⟨[1, 1], [3 / 2, 1 / 2], 0, 0, [3, 1]⟩, "3:1"⟩ ∧
    ((⟨⟨[1, 1], [3 / 2, 1 / 2], 0, 0, [3, 1]⟩, "3:1"⟩ : FitResult).observed = [1, 1] ∧
      models.lookup (⟨⟨[1, 1], [3 / 2, 1 / 2], 0, 0, [3, 1]⟩, "3:1"⟩ : FitResult).model =
        some (⟨⟨[1, 1], [3 / 2, 1 / 2], 0, 0, [3, 1]⟩, "3:1"⟩ : FitResult).best_fit_ratio) := by
  have hcand : candidates chisq0 [1, 1] =
      [⟨⟨[1, 1], [3 / 2, 1 / 2], 0, 0, [3, 1]⟩, "3:1"⟩,
       ⟨⟨[1, 1], [9 / 8, 7 / 8], 0, 0, [9, 7]⟩, "9:7"⟩,
       ⟨⟨[1, 1], [15 / 8, 1 / 8], 0, 0, [15, 1]⟩, "15:1"⟩,
       ⟨⟨[1, 1], [13 / 8, 3 / 8], 0, 0, [13, 3]⟩, "13:3"⟩] := by
    norm_num [candidates, models, test_segregation, chisq0]
  have hmax : pymax (fun r : FitResult => r.p_value)
      ⟨⟨[1, 1], [3 / 2, 1 / 2], 0, 0, [3, 1]⟩, "3:1"⟩
      [⟨⟨[1, 1], [9 / 8, 7 / 8], 0, 0, [9, 7]⟩, "9:7"⟩,
       ⟨⟨[1, 1], [15 / 8, 1 / 8], 0, 0, [15, 1]⟩, "15:1"⟩,
       ⟨⟨[1, 1], [13 / 8, 3 / 8], 0, 0, [13, 3]⟩, "13:3"⟩] =
      ⟨⟨[1, 1], [3 / 2, 1 / 2], 0, 0, [3, 1]⟩, "3:1"⟩ := by
    apply pymax_eq_head
    intro y hy
    simp only [List.mem_cons, List.not_mem_nil, or_false] at hy
    rcases hy with rfl | rfl | rfl
    · exact le_rfl
    · exact le_rfl
    · exact le_rfl
  have hcomp : compare_models chisq0 [1, 1] =
      some ⟨⟨[1, 1], [3 / 2, 1 / 2], 0, 0, [3, 1]⟩, "3:1"⟩ := by
    simp only [compare_models, hcand]
    rw [hmax]
  exact ⟨hcomp, C10_frame chisq0 [1, 1] _ hcomp⟩

/-- C6: the claim says a zero observed total with matching candidates makes
the selector raise DegenerateInputError. No such error type, and no
zero-total check, exists anywhere in src/app.py: on observed = [0, 0] the
selector returns a best result for every external primitive, after handing
the primitive the all-zero expected vector (on which scipy.stats.chisquare
produces NaN division results, not a DegenerateInputError). -/
theorem C6_zero_total_not_raised (chisq : List ℚ → List ℚ → ℚ × ℚ) :
    ([0, 0] : List ℚ).sum = 0 ∧
    (compare_models chisq [0, 0]).isSome = true ∧
    (test_segregation chisq [0, 0] [3, 1]).expected = [0, 0] := by
  refine ⟨by norm_num, ?_, ?_⟩
  · rcases hc : candidates chisq [0, 0] with _ | ⟨x, xs⟩
    · simp only [candidates] at hc
      have hfilter : models.filter
          (fun m => m.2.length == ([0, 0] : List ℚ).length) = [] :=
        List.map_eq_nil_iff.mp hc
      exact absurd hfilter (by decide)
    · simp [compare_models, hc]
  · norm_num [test_segregation]

/-- C7: the claim says mismatched observed/ratio lengths make the
evaluator fail fast with InvalidInputError. No such error type, and no
length check, exists anywhere in src/app.py: the embedded evaluator builds
a complete result for observed = [1, 2] against the 3-entry ratio
[3, 1, 1] and hands the mismatched vectors to the external primitive (in
the running code numpy then raises a ValueError for non-broadcastable
shapes, and silently computes when one of the lengths is 1 — in neither
case an InvalidInputError from the evaluator). -/
theorem C7_no_length_check (chisq : List ℚ → List ℚ → ℚ × ℚ) :
    ([1, 2] : List ℚ).length ≠ ([3, 1, 1] : List ℚ).length ∧
    (test_segregation chisq [1, 2] [3, 1, 1]).observed = [1, 2] ∧
    (test_segregation chisq [1, 2] [3, 1, 1]).expected = [9 / 5, 3 / 5, 3 / 5] ∧
    ((test_segregation chisq [1, 2] [3, 1, 1]).chi_square_stat,
      (test_segregation chisq [1, 2] [3, 1, 1]).p_value) =
      chisq [1, 2] [9 / 5, 3 / 5, 3 / 5] := by
  have hexp : (test_segregation chisq [1, 2] [3, 1, 1]).expected =
      [9 / 5, 3 / 5, 3 / 5] := by
    norm_num [test_segregation]
  refine ⟨by decide, rfl, hexp, ?_⟩
  show chisq [1, 2] (test_segregation chisq [1, 2] [3, 1, 1]).expected =
    chisq [1, 2] [9 / 5, 3 / 5, 3 / 5]
  rw [hexp]

/-- A concrete p-value map satisfying the two facts assumed of the
chi-square survival function (antitone on the nonnegative statistics,
value 1 at statistic 0); used only to instantiate witness statements. -/
def pval0 : ℚ → ℚ := fun s => max 0 (1 - s)

/-- C8: on observed = [90, 30], which is exactly proportional to the
"3:1" ratio, the selector picks "3:1" with expected [90, 30], statistic 0
and p-value 1, assuming of the external primitive's p-value only that it
is antitone in the Pearson statistic and equals 1 at statistic 0 (the
survival function of the chi-square distribution is both); the code's
inverted interpretation branch then reports NO_MODEL_EXPLAINS for this
p-value, not the FITS verdict the claim states. -/
theorem C8_proportional_selects_three_one (pval : ℚ → ℚ)
    (hmono : ∀ s t : ℚ, 0 ≤ s → s ≤ t → pval t ≤ pval s)
    (h0 : pval 0 = 1) :
    compare_models (scipy_chisquare pval) [90, 30] =
      some ⟨⟨[90, 30], [90, 30], 0, 1, [3, 1]⟩, "3:1"⟩ ∧
    result_ui_verdict 1 = Verdict.NO_MODEL_EXPLAINS := by
  have hcand : candidates (scipy_chisquare pval) [90, 30] =
      [⟨⟨[90, 30], [90, 30], 0, pval 0, [3, 1]⟩, "3:1"⟩,
       ⟨⟨[90, 30], [135 / 2, 105 / 2], 120 / 7, pval (120 / 7), [9, 7]⟩, "9:7"⟩,
       ⟨⟨[90, 30], [225 / 2, 15 / 2], 72, pval 72, [15, 1]⟩, "15:1"⟩,
       ⟨⟨[90, 30], [195 / 2, 45 / 2], 40 / 13, pval (40 / 13), [13, 3]⟩, "13:3"⟩] := by
    norm_num [candidates, models, test_segregation, scipy_chisquare, pearson_stat]
  have h2 : pval (120 / 7) ≤ pval 0 := hmono 0 (120 / 7) le_rfl (by norm_num)
  have h3 : pval 72 ≤ pval 0 := hmono 0 72 le_rfl (by norm_num)
  have h4 : pval (40 / 13) ≤ pval 0 := hmono 0 (40 / 13) le_rfl (by norm_num)
  have hmax : pymax (fun r : FitResult => r.p_value)
      ⟨⟨[90, 30], [90, 30], 0, pval 0, [3, 1]⟩, "3:1"⟩
      [⟨⟨[90, 30], [135 / 2, 105 / 2], 120 / 7, pval (120 / 7), [9, 7]⟩, "9:7"⟩,
       ⟨⟨[90, 30], [225 / 2, 15 / 2], 72, pval 72, [15, 1]⟩, "15:1"⟩,
       ⟨⟨[90, 30], [195 / 2, 45 / 2], 40 / 13, pval (40 / 13), [13, 3]⟩, "13:3"⟩] =
      ⟨⟨[90, 30], [90, 30], 0, pval 0, [3, 1]⟩, "3:1"⟩ := by
    apply pymax_eq_head
    intro y hy
    simp only [List.mem_cons, List.not_mem_nil, or_false] at hy
    rcases hy with rfl | rfl | rfl
    · exact h2
    · exact h3
    · exact h4
  constructor
  · simp only [compare_models, hcand]
    rw [hmax, h0]
  · rw [result_ui_verdict, if_neg (by norm_num)]

/-- C8 at the concrete p-value map `pval0`. -/
theorem C8_proportional_selects_three_one_witness :
    compare_models (scipy_chisquare pval0) [90, 30] =
      some ⟨⟨[90, 30], [90, 30], 0, 1, [3, 1]⟩, "3:1"⟩ ∧
    result_ui_verdict 1 = Verdict.NO_MODEL_EXPLAINS :=
  C8_proportional_selects_three_one pval0
    (fun s t hs hst => max_le_max le_rfl (by linarith))
    (by norm_num [pval0])
